import Mathlib

/-!
# Everglade: directory scanner and file cipher adapter

A shallow embedding of `src/file.go` (package `everglade`).

* Go `string` and `[]byte` values are lists of bytes.
* A Go function that can raise a run-time panic returns `Exec`.
* A `File` method runs against a `Store` (path ↦ content) and a record of the
  faults the operating system injects into that call; it ends in an `Outcome`.
* `filepath.Walk` is a library routine: the sequence of entries it would hand
  to a callback that never aborts is an input (`Env.visit`), and `Walk`
  replays that sequence until the callback returns an error.
* `Object`, `getError` and the error-kind constants are declared outside
  `src/file.go`.
-/

namespace Everglade

/-! ## Bytes, strings, errors -/

/-- One octet. -/
abbrev Byte := Fin 256

/-- A Go `[]byte` or `string`: a finite sequence of octets. -/
abbrev Bytes := List Byte

/-- The octets of an ASCII literal, for writing concrete paths. -/
def ascii (s : String) : Bytes := s.toList.map (fun c => Fin.ofNat c.toNat)

/-- Modelled from the spec: the error-kind constants `fileWalkRead`, `fileWalk`,
`readFile`, `createFile`, `writeFile`, `encryptFile`, `decryptFile` are used by
`src/file.go` and declared elsewhere. The spec (section 7) lists discovery, read,
create, write and crypto failures as distinguishable kinds, so every identifier
is a constructor of its own. -/
inductive ErrKind where
  | fileWalkRead
  | fileWalk
  | readFile
  | createFile
  | writeFile
  | encryptFile
  | decryptFile
  deriving DecidableEq, Repr

/-- A non-nil Go `error`: either one produced outside this package (operating
system, key-material primitive), or one built by `getError`. -/
inductive GoError where
  | ext (code : Nat)
  | tagged (kind : ErrKind) (cause : GoError)
  deriving DecidableEq, Repr

/-- Modelled from the spec: `getError(kind, err)` is declared outside
`src/file.go`; it returns an error of the given kind that carries `err`. -/
def getError (kind : ErrKind) (err : GoError) : GoError := GoError.tagged kind err

/-- The kind of an error, when `getError` built it. -/
def GoError.kind? : GoError → Option ErrKind
  | GoError.ext _ => none
  | GoError.tagged k _ => some k

/-- Result of running Go code that may raise a run-time panic. -/
inductive Exec (α : Type) where
  | ret (a : α)
  | panic
  deriving DecidableEq, Repr

/-! ## Data model (file.go lines 12-29) -/

/-- The struct `File` (line 12). -/
structure File where
  Name : Bytes
  deriving DecidableEq, Repr

/-- The struct `FileList` (line 17). -/
structure FileList where
  Files : List File
  deriving DecidableEq, Repr

/-- The function `NewFile` (line 27). -/
def NewFile (fn : Bytes) : File := { Name := fn }

/-- The method `addFile` (line 22): `append(fl.Files, NewFile(fn))`. -/
def FileList.addFile (fl : FileList) (fn : Bytes) : FileList :=
  { Files := fl.Files ++ [NewFile fn] }

/-! ## Directory scanner (file.go lines 31-91) -/

/-- One invocation of the `filepath.Walk` callback: the path `p`, whether
`info.IsDir()` holds, and the `err` argument (`none` is `nil`). -/
structure WalkEntry where
  path : Bytes
  isDir : Bool
  err : Option GoError
  deriving DecidableEq, Repr

/-- What the scanner reads from its surroundings: `runtime.GOOS`, `os.Args`,
`os.PathSeparator`, and for every root directory the entries `filepath.Walk`
visits there, in visitation order. -/
structure Env where
  GOOS : Bytes
  Args : List Bytes
  PathSeparator : Byte
  visit : Bytes → List WalkEntry

/-- The library routine `filepath.Walk`, for a callback that never returns
`filepath.SkipDir`: the callback runs on the entries in order, threading its
captured state, and the first non-nil error it returns ends the walk and is the
result of `Walk`. -/
def Walk {σ : Type} (fn : σ → WalkEntry → σ × Option GoError) :
    List WalkEntry → σ → σ × Option GoError
  | [], s => (s, none)
  | e :: rest, s =>
    match fn s e with
    | (s1, none) => Walk fn rest s1
    | (s1, some err) => (s1, some err)

/-- Lines 36-39: `fn := os.Args[0][2:]`, replaced by `os.Args[0]` when
`runtime.GOOS == "windows"`. Indexing an empty `os.Args` and slicing a string
shorter than two bytes both panic, before the platform test. -/
def selfName (env : Env) : Exec Bytes :=
  match env.Args with
  | [] => Exec.panic
  | a0 :: _ =>
    if 2 ≤ a0.length then
      let fn := a0.drop 2
      if env.GOOS = ascii "windows" then Exec.ret a0 else Exec.ret fn
    else Exec.panic

/-- The callback of lines 42-50, with the captured `fl` as explicit state. -/
def discoverStep (fn ex : Bytes) (fl : FileList) (e : WalkEntry) :
    FileList × Option GoError :=
  match e.err with
  | some err => (fl, some (getError ErrKind.fileWalkRead err))
  | none =>
    if !e.isDir && fn != e.path && e.path != ex then (fl.addFile e.path, none)
    else (fl, none)

/-- The function `DiscoverFilesInDirectory` (lines 32-55). The result pair is in
the order of the source: error first. -/
def DiscoverFilesInDirectory (env : Env) (dir ex : Bytes) :
    Exec (Option GoError × FileList) :=
  match selfName env with
  | Exec.panic => Exec.panic
  | Exec.ret fn =>
    match Walk (discoverStep fn ex) (env.visit dir) { Files := [] } with
    | (_, some err) => Exec.ret (some (getError ErrKind.fileWalk err), { Files := [] })
    | (fl, none) => Exec.ret (none, fl)

/-- The library routine `strings.Split(s, sep)` for a separator of one byte, which
`string(os.PathSeparator)` is: the maximal runs of `s` between occurrences of
`sep`; the result is never empty. -/
def Split : Bytes → Byte → List Bytes
  | [], _ => [[]]
  | c :: cs, sep =>
    if c = sep then [] :: Split cs sep
    else
      match Split cs sep with
      | [] => [[c]]
      | seg :: segs => (c :: seg) :: segs

/-- The indexing `xs[len(xs)-1]`: the last element, or a panic on an empty
slice. -/
def lastElem (xs : List Bytes) : Exec Bytes :=
  match xs.getLast? with
  | none => Exec.panic
  | some x => Exec.ret x

/-- The loop of lines 64-70 over `fs.Files`. -/
def findLoop (sep : Byte) (fn : Bytes) : List File → Exec (Option GoError × Bytes)
  | [] => Exec.ret (none, [])
  | f :: rest =>
    match lastElem (Split f.Name sep) with
    | Exec.panic => Exec.panic
    | Exec.ret last => if last = fn then Exec.ret (none, f.Name) else findLoop sep fn rest

/-- The function `FindFileInDirectory` (lines 58-71). -/
def FindFileInDirectory (env : Env) (dir fn : Bytes) : Exec (Option GoError × Bytes) :=
  match DiscoverFilesInDirectory env dir [] with
  | Exec.panic => Exec.panic
  | Exec.ret (some err, _) => Exec.ret (some (getError ErrKind.fileWalk err), [])
  | Exec.ret (none, fs) => findLoop env.PathSeparator fn fs.Files

/-- The loop of lines 81-89 over `fs.Files`, with the accumulator `r`. -/
def typeLoop (sep : Byte) (ex : Bytes) : List File → FileList → Exec FileList
  | [], r => Exec.ret r
  | f :: rest, r =>
    match lastElem (Split f.Name sep) with
    | Exec.panic => Exec.panic
    | Exec.ret name =>
      match lastElem (Split name sep) with
      | Exec.panic => Exec.panic
      | Exec.ret last =>
        if last = ex then typeLoop sep ex rest (r.addFile f.Name)
        else typeLoop sep ex rest r

/-- The function `FindFilesByTypeInDirectory` (lines 74-91). -/
def FindFilesByTypeInDirectory (env : Env) (dir ex : Bytes) :
    Exec (Option GoError × FileList) :=
  match DiscoverFilesInDirectory env dir [] with
  | Exec.panic => Exec.panic
  | Exec.ret (some err, _) => Exec.ret (some (getError ErrKind.fileWalk err), { Files := [] })
  | Exec.ret (none, fs) =>
    match typeLoop env.PathSeparator ex fs.Files { Files := [] } with
    | Exec.panic => Exec.panic
    | Exec.ret r => Exec.ret (none, r)

/-! ## File cipher adapter (file.go lines 93-230) -/

/-- The type `Object` is declared outside `src/file.go`; it is taken with the
signatures of its call sites. The CBC and GCM primitives return bytes only; the
OAEP primitives return `(error, []byte)`, `none` being a nil error. A primitive
that draws randomness is the function its call realised. The GCM decryption has
to signal an authentication failure (spec, sections 4.2 and 6) and has no error
result to do it with: its signal is a run-time panic, so its result is an
`Exec`. -/
structure Object where
  EncryptCBC : Bytes → Bytes × Bytes
  DecryptCBC : Bytes → Bytes → Bytes
  EncryptGCM : Bytes → Bytes → Bytes × Bytes
  DecryptGCM : Bytes → Bytes → Bytes → Exec Bytes
  EncryptOAEP : Bytes → Bytes → Option GoError × Bytes
  DecryptOAEP : Bytes → Bytes → Option GoError × Bytes

/-- The file system: the content of every existing path. -/
abbrev Store := Bytes → Option Bytes

/-- The failures the operating system injects into one call of a `File` method:
an error for `ioutil.ReadFile`, for `os.Create`, and for `Write` together with
the number of bytes that reached the file before the error. `none` means the
step succeeds. -/
structure Faults where
  read : Option GoError
  create : Option GoError
  write : Option (GoError × Nat)

/-- No injected failure. -/
def Faults.clean : Faults := { read := none, create := none, write := none }

/-- Replace the content of one path. -/
def Store.set (st : Store) (name : Bytes) (d : Bytes) : Store :=
  fun p => if p = name then some d else st p

/-- The library routine `ioutil.ReadFile`: the whole content, or an error (also
when the path does not exist). -/
def ReadFile (st : Store) (flt : Faults) (name : Bytes) : Except GoError Bytes :=
  match flt.read with
  | some err => Except.error err
  | none =>
    match st name with
    | none => Except.error (GoError.ext 2)
    | some d => Except.ok d

/-- The library routine `os.Create`: creates the file or truncates it to length
zero; a failure leaves the store as it was. -/
def Create (st : Store) (flt : Faults) (name : Bytes) : Except GoError Store :=
  match flt.create with
  | some err => Except.error err
  | none => Except.ok (st.set name [])

/-- The method `Write` on the file just created: all of `b` reaches the file, or
the first `n` bytes do and an error is returned. -/
def Write (st : Store) (flt : Faults) (name : Bytes) (b : Bytes) : Store × Option GoError :=
  match flt.write with
  | some (err, n) => (st.set name (b.take n), some err)
  | none => (st.set name b, none)

/-- How a `File` method ends: it returns its `error` result (`none` is nil), or
it panics; either way the store it leaves behind is recorded. -/
inductive Outcome where
  | returned (st : Store) (err : Option GoError)
  | panicked (st : Store)

/-- The store an outcome leaves behind. -/
def Outcome.store : Outcome → Store
  | Outcome.returned st _ => st
  | Outcome.panicked st => st

/-- The returned `error`, `none` when the method panicked instead of returning. -/
def Outcome.result? : Outcome → Option (Option GoError)
  | Outcome.returned _ err => some err
  | Outcome.panicked _ => none

/-- The pair of slice expressions `d[:k], d[k:]` on the result of
`ioutil.ReadFile`. `d[k:]` needs `k ≤ len(d)` and `d[:k]` needs `k ≤ cap(d)`;
as `len(d) ≤ cap(d)` the statement panics exactly when `len(d) < k`. -/
def sliceAt (k : Nat) (d : Bytes) : Exec (Bytes × Bytes) :=
  if k ≤ d.length then Exec.ret (d.take k, d.drop k) else Exec.panic

/-- The constant `aes.BlockSize` of the standard library. -/
def aesBlockSize : Nat := 16

/-- The tail shared by all six methods: `os.Create`, then `Write` of `out`
(lines 102-112 and their five copies). -/
def overwrite (f : File) (st : Store) (flt : Faults) (out : Bytes) : Outcome :=
  match Create st flt f.Name with
  | Except.error err => Outcome.returned st (some (getError ErrKind.createFile err))
  | Except.ok st1 =>
    match Write st1 flt f.Name out with
    | (st2, some err) => Outcome.returned st2 (some (getError ErrKind.writeFile err))
    | (st2, none) => Outcome.returned st2 none

/-- The method `File.EncryptCBC` (lines 94-113). -/
def File.EncryptCBC (f : File) (obj : Object) (st : Store) (flt : Faults) : Outcome :=
  match ReadFile st flt f.Name with
  | Except.error err => Outcome.returned st (some (getError ErrKind.readFile err))
  | Except.ok pt =>
    match obj.EncryptCBC pt with
    | (iv, ct) => overwrite f st flt (iv ++ ct)

/-- The method `File.DecryptCBC` (lines 116-137). -/
def File.DecryptCBC (f : File) (obj : Object) (st : Store) (flt : Faults) : Outcome :=
  match ReadFile st flt f.Name with
  | Except.error err => Outcome.returned st (some (getError ErrKind.readFile err))
  | Except.ok d =>
    match sliceAt aesBlockSize d with
    | Exec.panic => Outcome.panicked st
    | Exec.ret (iv, ct) => overwrite f st flt (obj.DecryptCBC iv ct)

/-- The method `File.EncryptGCM` (lines 139-158). -/
def File.EncryptGCM (f : File) (obj : Object) (ad : Bytes) (st : Store) (flt : Faults) :
    Outcome :=
  match ReadFile st flt f.Name with
  | Except.error err => Outcome.returned st (some (getError ErrKind.readFile err))
  | Except.ok pt =>
    match obj.EncryptGCM pt ad with
    | (n, ct) => overwrite f st flt (n ++ ct)

/-- The method `File.DecryptGCM` (lines 160-181). The call of line 168 is not
guarded by a `recover`: a panic of the primitive ends the method, before
`os.Create`. -/
def File.DecryptGCM (f : File) (obj : Object) (ad : Bytes) (st : Store) (flt : Faults) :
    Outcome :=
  match ReadFile st flt f.Name with
  | Except.error err => Outcome.returned st (some (getError ErrKind.readFile err))
  | Except.ok d =>
    match sliceAt 12 d with
    | Exec.panic => Outcome.panicked st
    | Exec.ret (n, ct) =>
      match obj.DecryptGCM n ct ad with
      | Exec.panic => Outcome.panicked st
      | Exec.ret pt => overwrite f st flt pt

/-- The method `File.EncryptOAEP` (lines 184-206). -/
def File.EncryptOAEP (f : File) (obj : Object) (l : Bytes) (st : Store) (flt : Faults) :
    Outcome :=
  match ReadFile st flt f.Name with
  | Except.error err => Outcome.returned st (some (getError ErrKind.readFile err))
  | Except.ok pt =>
    match obj.EncryptOAEP pt l with
    | (some err, _) => Outcome.returned st (some (getError ErrKind.encryptFile err))
    | (none, ct) => overwrite f st flt ct

/-- The method `File.DecryptOAEP` (lines 208-230). -/
def File.DecryptOAEP (f : File) (obj : Object) (l : Bytes) (st : Store) (flt : Faults) :
    Outcome :=
  match ReadFile st flt f.Name with
  | Except.error err => Outcome.returned st (some (getError ErrKind.readFile err))
  | Except.ok ct =>
    match obj.DecryptOAEP ct l with
    | (some err, _) => Outcome.returned st (some (getError ErrKind.decryptFile err))
    | (none, pt) => overwrite f st flt pt

/-! ## Specification-level notions -/

/-- The final path-separator-delimited segment of a path, in the words of the
spec: what follows the last separator, or the whole path when it holds none. -/
def finalSegment (sep : Byte) : Bytes → Bytes
  | [] => []
  | c :: cs =>
    if sep ∈ cs then finalSegment sep cs
    else if c = sep then cs
    else c :: cs

/-- The entries of a walk that discovery keeps, in the words of the spec: not a
directory, path different from the self-path `sp` and from the excluded path. -/
def discovered (sp ex : Bytes) (es : List WalkEntry) : List File :=
  (es.filter (fun e => decide (e.isDir = false ∧ e.path ≠ sp ∧ e.path ≠ ex))).map
    (fun e => NewFile e.path)

/-- The first entry of a list, in list order, whose final segment is `fn`: its
full path, or the empty string when there is none. -/
def firstNamed (sep : Byte) (fn : Bytes) (fs : List File) : Bytes :=
  match fs.find? (fun f => decide (finalSegment sep f.Name = fn)) with
  | some f => f.Name
  | none => []

/-- A scanner environment for worked examples: the program was started as
`./everglade` on Linux, and walking any root visits the root `.`, two files
beside it (one of them the program), a directory and a file inside it. -/
def demoEnv : Env where
  GOOS := ascii "linux"
  Args := [ascii "./everglade"]
  PathSeparator := 47
  visit := fun _ =>
    [ { path := ascii ".", isDir := true, err := none },
      { path := ascii "a.txt", isDir := false, err := none },
      { path := ascii "everglade", isDir := false, err := none },
      { path := ascii "sub", isDir := true, err := none },
      { path := ascii "sub/report.txt", isDir := false, err := none } ]

/-- The program was started by its absolute path `/usr/bin/prog` on Linux and
walks `/usr/bin`, where the walk meets it under that same absolute path. -/
def absEnv : Env where
  GOOS := ascii "linux"
  Args := [ascii "/usr/bin/prog"]
  PathSeparator := 47
  visit := fun _ =>
    [ { path := ascii "/usr/bin", isDir := true, err := none },
      { path := ascii "/usr/bin/other", isDir := false, err := none },
      { path := ascii "/usr/bin/prog", isDir := false, err := none } ]

/-- The program was started as `.\prog.exe` on Windows and walks `.`, where the
walk meets it as `prog.exe`. -/
def winEnv : Env where
  GOOS := ascii "windows"
  Args := [ascii ".\\prog.exe"]
  PathSeparator := 92
  visit := fun _ =>
    [ { path := ascii ".", isDir := true, err := none },
      { path := ascii "prog.exe", isDir := false, err := none } ]

/-- A Windows start with an invocation path of a single byte. -/
def shortArgEnv : Env where
  GOOS := ascii "windows"
  Args := [ascii "p"]
  PathSeparator := 92
  visit := fun _ => [ { path := ascii ".", isDir := true, err := none } ]

/-- The checksum the example object appends as its authentication tag. -/
def toyTag (pt ad : Bytes) : Byte := (pt ++ ad).sum

/-- A key-material object for worked examples. CBC: a 16-byte IV of zeros and
every byte shifted by one. GCM: a 12-byte nonce, every byte shifted by one, and a
checksum of plaintext and associated data appended as tag; decryption checks the
tag and signals a mismatch by a panic.
OAEP: messages of at most four bytes are reversed, longer ones are refused. -/
def toyObject : Object where
  EncryptCBC := fun pt => (List.replicate 16 0, pt.map (fun b => b + 1))
  DecryptCBC := fun _ ct => ct.map (fun b => b - 1)
  EncryptGCM := fun pt ad => (List.replicate 12 7, pt.map (fun b => b + 1) ++ [toyTag pt ad])
  DecryptGCM := fun _ ct ad =>
    if ct.getLast? = some (toyTag (ct.dropLast.map (fun b => b - 1)) ad) then
      Exec.ret (ct.dropLast.map (fun b => b - 1))
    else Exec.panic
  EncryptOAEP := fun pt _ =>
    if pt.length ≤ 4 then (none, pt.reverse) else (some (GoError.ext 1), [])
  DecryptOAEP := fun ct _ =>
    if ct.length ≤ 4 then (none, ct.reverse) else (some (GoError.ext 3), [])

/-- The file `a.txt` of the worked examples. -/
def demoFile : File := NewFile (ascii "a.txt")

/-- A store holding the single file `a.txt` with content `d`. -/
def demoStore (d : Bytes) : Store := fun p => if p = ascii "a.txt" then some d else none

/-! ## Lemmas on the scanner -/

theorem discoverStep_ok (fn ex : Bytes) (fl : FileList) (e : WalkEntry) (h : e.err = none) :
    discoverStep fn ex fl e =
      ({ Files := fl.Files ++ discovered fn ex [e] }, none) := by
  unfold discoverStep discovered
  rw [h]
  by_cases hd : e.isDir = true
  · simp [hd]
  · have hd2 : e.isDir = false := by simpa using hd
    by_cases h1 : fn = e.path
    · simp [hd2, h1]
    · have h1b : ¬ e.path = fn := fun hh => h1 hh.symm
      by_cases h2 : e.path = ex
      · simp [hd2, h1, h2]
      · simp [hd2, h1, h1b, h2, FileList.addFile]

theorem discovered_cons (sp ex : Bytes) (e : WalkEntry) (es : List WalkEntry) :
    discovered sp ex (e :: es) = discovered sp ex [e] ++ discovered sp ex es := by
  unfold discovered
  rw [← List.map_append, ← List.filter_append]
  rfl

theorem walk_discover_ok (fn ex : Bytes) (es : List WalkEntry) (fl : FileList)
    (h : ∀ e ∈ es, e.err = none) :
    Walk (discoverStep fn ex) es fl = ({ Files := fl.Files ++ discovered fn ex es }, none) := by
  induction es generalizing fl with
  | nil => simp [Walk, discovered]
  | cons e es ih =>
    have he : e.err = none := h e (List.mem_cons_self e es)
    have hes : ∀ x ∈ es, x.err = none := fun x hx => h x (List.mem_cons_of_mem e hx)
    rw [Walk, discoverStep_ok fn ex fl e he]
    simp only []
    rw [ih _ hes, discovered_cons fn ex e es, List.append_assoc]

theorem walk_discover_files (fn ex : Bytes) (es : List WalkEntry) (fl fl1 : FileList)
    (r : Option GoError) (h : Walk (discoverStep fn ex) es fl = (fl1, r)) :
    ∀ f ∈ fl1.Files, f ∈ fl.Files ∨ (f.Name ≠ fn ∧ f.Name ≠ ex) := by
  induction es generalizing fl with
  | nil =>
    simp only [Walk, Prod.mk.injEq] at h
    intro f hf
    rw [← h.1] at hf
    exact Or.inl hf
  | cons e es ih =>
    rw [Walk] at h
    cases he : e.err with
    | some err =>
      simp only [discoverStep, he, Prod.mk.injEq] at h
      intro f hf
      rw [← h.1] at hf
      exact Or.inl hf
    | none =>
      rw [discoverStep_ok fn ex fl e he] at h
      simp only [] at h
      intro f hf
      rcases ih _ h f hf with h1 | h1
      · rcases List.mem_append.mp h1 with h2 | h2
        · exact Or.inl h2
        · right
          unfold discovered at h2
          rcases List.mem_map.mp h2 with ⟨x, hx, hxf⟩
          have hx2 := (List.mem_filter.mp hx).2
          simp only [decide_eq_true_eq] at hx2
          rw [← hxf]
          exact ⟨hx2.2.1, hx2.2.2⟩
      · exact Or.inr h1

theorem discover_ok (env : Env) (dir ex sp : Bytes) (hself : selfName env = Exec.ret sp)
    (hwalk : ∀ e ∈ env.visit dir, e.err = none) :
    DiscoverFilesInDirectory env dir ex =
      Exec.ret (none, { Files := discovered sp ex (env.visit dir) }) := by
  unfold DiscoverFilesInDirectory
  rw [hself]
  simp only []
  rw [walk_discover_ok sp ex _ _ hwalk]
  simp

theorem discovered_name_ne (sp ex : Bytes) (es : List WalkEntry) :
    ∀ f ∈ discovered sp ex es, f.Name ≠ sp ∧ f.Name ≠ ex := by
  intro f hf
  unfold discovered at hf
  rcases List.mem_map.mp hf with ⟨x, hx, hxf⟩
  have hx2 := (List.mem_filter.mp hx).2
  simp only [decide_eq_true_eq] at hx2
  rw [← hxf]
  exact ⟨hx2.2.1, hx2.2.2⟩

/-! ## Lemmas on `Split` -/

theorem split_ne_nil (s : Bytes) (sep : Byte) : Split s sep ≠ [] := by
  cases s with
  | nil => simp [Split]
  | cons c cs =>
    unfold Split
    by_cases h : c = sep
    · simp [h]
    · simp only [h, if_false]
      cases Split cs sep <;> simp

theorem split_no_sep (s : Bytes) (sep : Byte) (h : sep ∉ s) : Split s sep = [s] := by
  induction s with
  | nil => simp [Split]
  | cons c cs ih =>
    have hc : ¬ c = sep := fun hh => h (by simp [hh])
    have hcs : sep ∉ cs := fun hh => h (List.mem_cons_of_mem c hh)
    unfold Split
    simp [hc, ih hcs]

theorem split_two_of_mem (s : Bytes) (sep : Byte) (h : sep ∈ s) :
    ∃ a b rest, Split s sep = a :: b :: rest := by
  induction s with
  | nil => simp at h
  | cons c cs ih =>
    unfold Split
    by_cases hc : c = sep
    · simp only [hc, if_true]
      cases hs : Split cs sep with
      | nil => exact absurd hs (split_ne_nil cs sep)
      | cons b rest => exact ⟨[], b, rest, rfl⟩
    · simp only [hc, if_false]
      have hcs : sep ∈ cs := by
        rcases List.mem_cons.mp h with h1 | h1
        · exact absurd h1.symm hc
        · exact h1
      rcases ih hcs with ⟨a, b, rest, hab⟩
      rw [hab]
      exact ⟨c :: a, b, rest, rfl⟩

theorem finalSegment_no_sep (sep : Byte) (s : Bytes) : sep ∉ finalSegment sep s := by
  induction s with
  | nil => simp [finalSegment]
  | cons c cs ih =>
    unfold finalSegment
    by_cases h : sep ∈ cs
    · simp only [h, if_true]
      exact ih
    · simp only [h, if_false]
      by_cases hc : c = sep
      · simp only [hc, if_true]
        exact h
      · simp only [hc, if_false]
        intro hm
        rcases List.mem_cons.mp hm with h1 | h1
        · exact hc h1.symm
        · exact h h1

theorem finalSegment_of_no_sep (sep : Byte) (s : Bytes) (h : sep ∉ s) :
    finalSegment sep s = s := by
  cases s with
  | nil => simp [finalSegment]
  | cons c cs =>
    have hc : ¬ c = sep := fun hh => h (by simp [hh])
    have hcs : sep ∉ cs := fun hh => h (List.mem_cons_of_mem c hh)
    unfold finalSegment
    simp [hc, hcs]

theorem split_getLast (s : Bytes) (sep : Byte) :
    (Split s sep).getLast? = some (finalSegment sep s) := by
  induction s with
  | nil => simp [Split, finalSegment]
  | cons c cs ih =>
    by_cases hm : sep ∈ cs
    · rcases split_two_of_mem cs sep hm with ⟨a, b, rest, hab⟩
      have hfs : finalSegment sep (c :: cs) = finalSegment sep cs := by
        rw [finalSegment]; simp [hm]
      rw [hfs, ← ih, hab]
      unfold Split
      by_cases hc : c = sep
      · simp [hc, hab]
      · simp [hc, hab]
    · have hcs := split_no_sep cs sep hm
      unfold Split finalSegment
      by_cases hc : c = sep
      · simp [hc, hcs, hm]
      · simp [hc, hcs, hm]

theorem lastElem_split (s : Bytes) (sep : Byte) :
    lastElem (Split s sep) = Exec.ret (finalSegment sep s) := by
  unfold lastElem
  rw [split_getLast]

theorem split_finalSegment (s : Bytes) (sep : Byte) :
    Split (finalSegment sep s) sep = [finalSegment sep s] :=
  split_no_sep _ _ (finalSegment_no_sep sep s)

theorem finalSegment_suffix (sep : Byte) (s : Bytes) :
    s = finalSegment sep s ∨ ∃ pre, s = pre ++ sep :: finalSegment sep s := by
  induction s with
  | nil => left; simp [finalSegment]
  | cons c cs ih =>
    unfold finalSegment
    by_cases h : sep ∈ cs
    · simp only [h, if_true]
      right
      rcases ih with h1 | ⟨pre, h1⟩
      · exact absurd (h1 ▸ h) (finalSegment_no_sep sep cs)
      · exact ⟨c :: pre, by rw [List.cons_append, ← h1]⟩
    · simp only [h, if_false]
      by_cases hc : c = sep
      · simp only [hc, if_true]
        right
        exact ⟨[], rfl⟩
      · simp only [hc, if_false]
        left
        trivial

theorem findLoop_eq (sep : Byte) (fn : Bytes) (fs : List File) :
    findLoop sep fn fs = Exec.ret (none, firstNamed sep fn fs) := by
  induction fs with
  | nil => simp [findLoop, firstNamed]
  | cons f rest ih =>
    unfold findLoop
    rw [lastElem_split]
    simp only []
    by_cases h : finalSegment sep f.Name = fn
    · simp [h, firstNamed, List.find?]
    · rw [if_neg h, ih]
      simp [firstNamed, List.find?, h]

theorem typeLoop_eq (sep : Byte) (ex : Bytes) (fs : List File) (r : FileList) :
    typeLoop sep ex fs r =
      Exec.ret { Files := r.Files ++ fs.filter (fun f => decide (finalSegment sep f.Name = ex)) } := by
  induction fs generalizing r with
  | nil => simp [typeLoop]
  | cons f rest ih =>
    unfold typeLoop
    rw [lastElem_split]
    simp only []
    rw [split_finalSegment]
    simp only [lastElem, List.getLast?_singleton]
    by_cases h : finalSegment sep f.Name = ex
    · rw [if_pos h, ih]
      simp [FileList.addFile, NewFile, List.filter_cons, h]
    · rw [if_neg h, ih]
      simp [List.filter_cons, h]

theorem firstNamed_eq_nil_iff (sep : Byte) (fn : Bytes) (fs : List File)
    (hne : ∀ f ∈ fs, f.Name ≠ []) :
    firstNamed sep fn fs = [] ↔ ∀ f ∈ fs, finalSegment sep f.Name ≠ fn := by
  unfold firstNamed
  cases hfind : fs.find? (fun f => decide (finalSegment sep f.Name = fn)) with
  | none =>
    simp only [true_iff]
    intro f hf
    have := List.find?_eq_none.mp hfind f hf
    simpa using this
  | some g =>
    have hg : g ∈ fs := List.mem_of_find?_eq_some hfind
    have hp := List.find?_some hfind
    simp only [decide_eq_true_eq] at hp
    constructor
    · intro h0
      exact absurd h0 (hne g hg)
    · intro hall
      exact absurd hp (hall g hg)

/-! ## Claims on the directory scanner -/

/-- C5 (discovery result). When the self-path computation succeeds with value
`sp` and the walk of `dir` hands no error to the callback, then
`DiscoverFilesInDirectory(dir, X)` returns a nil error and exactly the visited
entries that are not directories and whose path differs from `sp` and from `X`,
in visitation order; the list never contains `X`; and it is empty (with a nil
error) when the walk visits no file. -/
theorem discover_result (env : Env) (dir X sp : Bytes)
    (hself : selfName env = Exec.ret sp)
    (hwalk : ∀ e ∈ env.visit dir, e.err = none) :
    DiscoverFilesInDirectory env dir X =
        Exec.ret (none, { Files := discovered sp X (env.visit dir) })
      ∧ NewFile X ∉ discovered sp X (env.visit dir)
      ∧ ((∀ e ∈ env.visit dir, e.isDir = true) →
          DiscoverFilesInDirectory env dir X = Exec.ret (none, { Files := [] })) := by
  refine ⟨discover_ok env dir X sp hself hwalk, ?_, ?_⟩
  · intro hmem
    exact (discovered_name_ne sp X _ _ hmem).2 rfl
  · intro hdirs
    rw [discover_ok env dir X sp hself hwalk]
    have hnil : discovered sp X (env.visit dir) = [] := by
      unfold discovered
      rw [List.map_eq_nil_iff, List.filter_eq_nil_iff]
      intro e he
      simp [hdirs e he]
    rw [hnil]

/-- Witness of C5: in `demoEnv`, with `a.txt` excluded, discovery returns the one
remaining file; the program itself, the excluded path and both directories are
left out. -/
theorem discover_result_witness :
    selfName demoEnv = Exec.ret (ascii "everglade")
      ∧ (∀ e ∈ demoEnv.visit (ascii "."), e.err = none)
      ∧ DiscoverFilesInDirectory demoEnv (ascii ".") (ascii "a.txt") =
          Exec.ret (none, { Files := [NewFile (ascii "sub/report.txt")] }) :=
  ⟨by decide, by decide,
    (discover_result demoEnv (ascii ".") (ascii "a.txt") (ascii "everglade")
      (by decide) (by decide)).1.trans (by decide)⟩

/-- C4, refuted as stated: started by absolute path on Linux (`absEnv`), or as
`.\prog.exe` on Windows (`winEnv`), the program finds its own binary in the list
that `DiscoverFilesInDirectory` returns. -/
theorem self_exclusion_counterexample :
    (DiscoverFilesInDirectory absEnv (ascii "/usr/bin") [] =
        Exec.ret (none, { Files := [NewFile (ascii "/usr/bin/other"),
                                     NewFile (ascii "/usr/bin/prog")] }))
      ∧ (DiscoverFilesInDirectory winEnv (ascii ".") [] =
        Exec.ret (none, { Files := [NewFile (ascii "prog.exe")] })) := by
  constructor <;> decide

/-- C4, amended: whenever the self-path computation succeeds with value `sp`
(`os.Args[0]` without its first two bytes off Windows, `os.Args[0]` itself on
Windows), `DiscoverFilesInDirectory` returns, and the list it returns holds no
entry whose path is `sp`. -/
theorem self_name_never_listed (env : Env) (dir ex sp : Bytes)
    (hself : selfName env = Exec.ret sp) :
    ∃ err fl, DiscoverFilesInDirectory env dir ex = Exec.ret (err, fl)
      ∧ NewFile sp ∉ fl.Files := by
  unfold DiscoverFilesInDirectory
  rw [hself]
  simp only []
  cases hw : Walk (discoverStep sp ex) (env.visit dir) { Files := [] } with
  | mk fl r =>
    cases r with
    | some err => exact ⟨_, _, rfl, by simp⟩
    | none =>
      refine ⟨_, _, rfl, ?_⟩
      intro hmem
      rcases walk_discover_files sp ex _ _ _ _ hw _ hmem with h1 | h1
      · simp at h1
      · exact h1.1 rfl

/-- Witness of the amended C4: started as `./everglade`, the walk meets the binary
as `everglade`, which is the computed self-path, and it is left out. -/
theorem self_name_never_listed_witness :
    selfName demoEnv = Exec.ret (ascii "everglade")
      ∧ ∃ err fl, DiscoverFilesInDirectory demoEnv (ascii ".") [] = Exec.ret (err, fl)
          ∧ NewFile (ascii "everglade") ∉ fl.Files :=
  ⟨by decide, self_name_never_listed demoEnv (ascii ".") [] (ascii "everglade") (by decide)⟩

/-- C6 (filename lookup). When the self-path computation succeeds and the walk
hands no error to the callback, `FindFileInDirectory(dir, fn)` returns a nil
error together with the full path of the first entry of the discovered list (the
discovery with the empty exclude path) whose final segment is `fn`, and the
returned path is the empty string exactly when no discovered entry has final
segment `fn`. -/
theorem find_file_first_match (env : Env) (dir fn sp : Bytes)
    (hself : selfName env = Exec.ret sp)
    (hwalk : ∀ e ∈ env.visit dir, e.err = none) :
    DiscoverFilesInDirectory env dir [] =
        Exec.ret (none, { Files := discovered sp [] (env.visit dir) })
      ∧ FindFileInDirectory env dir fn =
          Exec.ret (none, firstNamed env.PathSeparator fn (discovered sp [] (env.visit dir)))
      ∧ (firstNamed env.PathSeparator fn (discovered sp [] (env.visit dir)) = [] ↔
          ∀ f ∈ discovered sp [] (env.visit dir),
            finalSegment env.PathSeparator f.Name ≠ fn) := by
  have hd := discover_ok env dir [] sp hself hwalk
  refine ⟨hd, ?_, ?_⟩
  · unfold FindFileInDirectory
    rw [hd]
    simp only []
    rw [findLoop_eq]
  · apply firstNamed_eq_nil_iff
    intro f hf
    exact (discovered_name_ne sp [] _ f hf).2

/-- Witness of C6: in `demoEnv` the name `report.txt` is found at
`sub/report.txt`. -/
theorem find_file_first_match_witness :
    selfName demoEnv = Exec.ret (ascii "everglade")
      ∧ (∀ e ∈ demoEnv.visit (ascii "."), e.err = none)
      ∧ FindFileInDirectory demoEnv (ascii ".") (ascii "report.txt") =
          Exec.ret (none, ascii "sub/report.txt") :=
  ⟨by decide, by decide,
    (find_file_first_match demoEnv (ascii ".") (ascii "report.txt") (ascii "everglade")
      (by decide) (by decide)).2.1.trans (by decide)⟩

/-- C7 (the extension filter is whole-filename equality). When the self-path
computation succeeds and the walk hands no error to the callback,
`FindFilesByTypeInDirectory(dir, ex)` returns, for every `ex`, a nil error and
exactly the discovered entries whose final path segment equals `ex`, in
discovery order; splitting a final segment again by the separator yields that
segment alone; and a discovered file named `report.txt` is returned for
`ex = "report.txt"` and returned neither for `ex = "txt"` nor for `ex = ".txt"`. -/
theorem find_by_type_is_name_equality (env : Env) (dir sp : Bytes)
    (hself : selfName env = Exec.ret sp)
    (hwalk : ∀ e ∈ env.visit dir, e.err = none) :
    DiscoverFilesInDirectory env dir [] =
        Exec.ret (none, { Files := discovered sp [] (env.visit dir) })
      ∧ (∀ ex, FindFilesByTypeInDirectory env dir ex =
          Exec.ret (none,
            { Files := List.filter
                (fun f => decide (finalSegment env.PathSeparator f.Name = ex))
                (discovered sp [] (env.visit dir)) }))
      ∧ (∀ p, Split (finalSegment env.PathSeparator p) env.PathSeparator =
          [finalSegment env.PathSeparator p])
      ∧ (∀ f ∈ discovered sp [] (env.visit dir),
          finalSegment env.PathSeparator f.Name = ascii "report.txt" →
            (∃ r, FindFilesByTypeInDirectory env dir (ascii "report.txt") = Exec.ret (none, r)
                ∧ f ∈ r.Files)
            ∧ (∃ r, FindFilesByTypeInDirectory env dir (ascii "txt") = Exec.ret (none, r)
                ∧ f ∉ r.Files)
            ∧ (∃ r, FindFilesByTypeInDirectory env dir (ascii ".txt") = Exec.ret (none, r)
                ∧ f ∉ r.Files)) := by
  have hd := discover_ok env dir [] sp hself hwalk
  have hall : ∀ ex, FindFilesByTypeInDirectory env dir ex =
      Exec.ret (none,
        { Files := List.filter
            (fun f => decide (finalSegment env.PathSeparator f.Name = ex))
            (discovered sp [] (env.visit dir)) }) := by
    intro ex
    unfold FindFilesByTypeInDirectory
    rw [hd]
    simp only []
    rw [typeLoop_eq]
    simp
  refine ⟨hd, hall, fun p => split_finalSegment p _, ?_⟩
  intro f hf hname
  refine ⟨⟨_, hall _, ?_⟩, ⟨_, hall _, ?_⟩, ⟨_, hall _, ?_⟩⟩
  · exact List.mem_filter.mpr ⟨hf, by simp [hname]⟩
  · intro hm
    have h2 := (List.mem_filter.mp hm).2
    rw [hname] at h2
    revert h2
    decide
  · intro hm
    have h2 := (List.mem_filter.mp hm).2
    rw [hname] at h2
    revert h2
    decide

/-- Witness of C7: in `demoEnv` the filter returns `sub/report.txt` for
`report.txt` and nothing for `txt`. -/
theorem find_by_type_is_name_equality_witness :
    selfName demoEnv = Exec.ret (ascii "everglade")
      ∧ (∀ e ∈ demoEnv.visit (ascii "."), e.err = none)
      ∧ FindFilesByTypeInDirectory demoEnv (ascii ".") (ascii "report.txt") =
          Exec.ret (none, { Files := [NewFile (ascii "sub/report.txt")] })
      ∧ FindFilesByTypeInDirectory demoEnv (ascii ".") (ascii "txt") =
          Exec.ret (none, { Files := [] })
      ∧ (∃ r, FindFilesByTypeInDirectory demoEnv (ascii ".") (ascii ".txt") = Exec.ret (none, r)
          ∧ NewFile (ascii "sub/report.txt") ∉ r.Files) :=
  ⟨by decide, by decide,
    ((find_by_type_is_name_equality demoEnv (ascii ".") (ascii "everglade")
      (by decide) (by decide)).2.1 (ascii "report.txt")).trans (by decide),
    ((find_by_type_is_name_equality demoEnv (ascii ".") (ascii "everglade")
      (by decide) (by decide)).2.1 (ascii "txt")).trans (by decide),
    ((find_by_type_is_name_equality demoEnv (ascii ".") (ascii "everglade")
      (by decide) (by decide)).2.2.2 (NewFile (ascii "sub/report.txt"))
      (by decide) (by decide)).2.2⟩

/-- C10 (bounds of the self-path computation). With invocation path `a0`, the
self-path computation is in bounds exactly when `a0` has at least two bytes; for
a shorter `a0` the call of `DiscoverFilesInDirectory` panics whatever the
platform and whatever the walk would visit; and for `a0` of at least two bytes
off Windows the self-path, the one the walk entries are compared with, is `a0`
without its first two bytes. -/
theorem self_path_bounds (env : Env) (a0 : Bytes) (rest : List Bytes) (dir ex : Bytes)
    (hargs : env.Args = a0 :: rest) :
    ((∃ sp, selfName env = Exec.ret sp) ↔ 2 ≤ a0.length)
      ∧ (a0.length < 2 → DiscoverFilesInDirectory env dir ex = Exec.panic)
      ∧ (2 ≤ a0.length → env.GOOS ≠ ascii "windows" →
          selfName env = Exec.ret (a0.drop 2)
          ∧ DiscoverFilesInDirectory env dir ex =
              match Walk (discoverStep (a0.drop 2) ex) (env.visit dir) { Files := [] } with
              | (_, some err) =>
                Exec.ret (some (getError ErrKind.fileWalk err), { Files := [] })
              | (fl, none) => Exec.ret (none, fl)) := by
  refine ⟨?_, ?_, ?_⟩
  · unfold selfName
    rw [hargs]
    by_cases h : 2 ≤ a0.length
    · by_cases hw : env.GOOS = ascii "windows" <;> simp [h, hw]
    · simp [h]
  · intro h
    have h2 : ¬ 2 ≤ a0.length := by omega
    unfold DiscoverFilesInDirectory selfName
    rw [hargs]
    simp [h2]
  · intro h hw
    have hs : selfName env = Exec.ret (a0.drop 2) := by
      unfold selfName
      rw [hargs]
      simp [h, hw]
    refine ⟨hs, ?_⟩
    unfold DiscoverFilesInDirectory
    rw [hs]

/-- Witness of C10: started as `./everglade` on Linux, the self-path is
`everglade`; started under a one-byte name on Windows, discovery panics. -/
theorem self_path_bounds_witness :
    demoEnv.Args = [ascii "./everglade"]
      ∧ 2 ≤ (ascii "./everglade").length
      ∧ demoEnv.GOOS ≠ ascii "windows"
      ∧ selfName demoEnv = Exec.ret (ascii "everglade")
      ∧ DiscoverFilesInDirectory shortArgEnv (ascii ".") [] = Exec.panic :=
  ⟨rfl, by decide, by decide,
    ((self_path_bounds demoEnv (ascii "./everglade") [] (ascii ".") [] rfl).2.2
      (by decide) (by decide)).1.trans (by decide),
    (self_path_bounds shortArgEnv (ascii "p") [] (ascii ".") [] rfl).2.1 (by decide)⟩

/-! ## Lemmas on the file cipher adapter -/

theorem store_set_same (st : Store) (name d : Bytes) : (st.set name d) name = some d := by
  simp [Store.set]

theorem readFile_clean (st : Store) (name d : Bytes) (h : st name = some d) :
    ReadFile st Faults.clean name = Except.ok d := by
  simp [ReadFile, Faults.clean, h]

theorem overwrite_clean (f : File) (st : Store) (out : Bytes) :
    overwrite f st Faults.clean out =
      Outcome.returned ((st.set f.Name []).set f.Name out) none := by
  simp [overwrite, Create, Write, Faults.clean]

theorem sliceAt_append (k : Nat) (a b : Bytes) (h : a.length = k) :
    sliceAt k (a ++ b) = Exec.ret (a, b) := by
  unfold sliceAt
  have hle : k ≤ (a ++ b).length := by rw [List.length_append]; omega
  rw [if_pos hle, List.take_left' h, List.drop_left' h]

theorem encryptCBC_clean (f : File) (obj : Object) (st : Store) (P : Bytes)
    (hP : st f.Name = some P) :
    f.EncryptCBC obj st Faults.clean =
      Outcome.returned
        ((st.set f.Name []).set f.Name ((obj.EncryptCBC P).1 ++ (obj.EncryptCBC P).2)) none := by
  unfold File.EncryptCBC
  rw [readFile_clean st _ P hP]
  simp only []
  rw [overwrite_clean]

theorem encryptGCM_clean (f : File) (obj : Object) (ad : Bytes) (st : Store) (P : Bytes)
    (hP : st f.Name = some P) :
    f.EncryptGCM obj ad st Faults.clean =
      Outcome.returned
        ((st.set f.Name []).set f.Name ((obj.EncryptGCM P ad).1 ++ (obj.EncryptGCM P ad).2))
        none := by
  unfold File.EncryptGCM
  rw [readFile_clean st _ P hP]
  simp only []
  rw [overwrite_clean]

theorem encryptOAEP_clean (f : File) (obj : Object) (l : Bytes) (st : Store) (P : Bytes)
    (hP : st f.Name = some P) (hok : (obj.EncryptOAEP P l).1 = none) :
    f.EncryptOAEP obj l st Faults.clean =
      Outcome.returned ((st.set f.Name []).set f.Name (obj.EncryptOAEP P l).2) none := by
  unfold File.EncryptOAEP
  rw [readFile_clean st _ P hP]
  simp only []
  cases hr : obj.EncryptOAEP P l with
  | mk e ct =>
    rw [hr] at hok
    simp only [] at hok
    subst hok
    simp only []
    rw [overwrite_clean]

theorem decryptCBC_clean (f : File) (obj : Object) (st : Store) (d : Bytes)
    (hd : st f.Name = some d) (hlen : 16 ≤ d.length) :
    f.DecryptCBC obj st Faults.clean =
      Outcome.returned
        ((st.set f.Name []).set f.Name (obj.DecryptCBC (d.take 16) (d.drop 16))) none := by
  unfold File.DecryptCBC
  rw [readFile_clean st _ d hd]
  simp only [sliceAt, aesBlockSize, hlen, if_true]
  rw [overwrite_clean]

theorem decryptGCM_clean (f : File) (obj : Object) (ad : Bytes) (st : Store) (d pt : Bytes)
    (hd : st f.Name = some d) (hlen : 12 ≤ d.length)
    (hpt : obj.DecryptGCM (d.take 12) (d.drop 12) ad = Exec.ret pt) :
    f.DecryptGCM obj ad st Faults.clean =
      Outcome.returned ((st.set f.Name []).set f.Name pt) none := by
  unfold File.DecryptGCM
  rw [readFile_clean st _ d hd]
  simp only [sliceAt, hlen, if_true]
  rw [hpt]
  simp only []
  rw [overwrite_clean]

theorem decryptOAEP_clean (f : File) (obj : Object) (l : Bytes) (st : Store) (d : Bytes)
    (hd : st f.Name = some d) (hok : (obj.DecryptOAEP d l).1 = none) :
    f.DecryptOAEP obj l st Faults.clean =
      Outcome.returned ((st.set f.Name []).set f.Name (obj.DecryptOAEP d l).2) none := by
  unfold File.DecryptOAEP
  rw [readFile_clean st _ d hd]
  simp only []
  cases hr : obj.DecryptOAEP d l with
  | mk e pt =>
    rw [hr] at hok
    simp only [] at hok
    subst hok
    simp only []
    rw [overwrite_clean]

theorem overwrite_error_kind (f : File) (st st1 : Store) (flt : Faults) (out : Bytes)
    (e : GoError) (h : overwrite f st flt out = Outcome.returned st1 (some e)) :
    e.kind? = some ErrKind.createFile ∨ e.kind? = some ErrKind.writeFile := by
  unfold overwrite at h
  cases hc : Create st flt f.Name with
  | error err =>
    rw [hc] at h
    simp only [Outcome.returned.injEq, Option.some.injEq] at h
    left
    rw [← h.2]
    rfl
  | ok st2 =>
    rw [hc] at h
    simp only [] at h
    cases hw : Write st2 flt f.Name out with
    | mk st3 r =>
      rw [hw] at h
      cases r with
      | none => simp at h
      | some err =>
        simp only [Outcome.returned.injEq, Option.some.injEq] at h
        right
        rw [← h.2]
        rfl

/-! ## Claims on the file cipher adapter -/

/-- C2 (on-disk layout). For a file with content `P` and no I/O failure: after
`File.EncryptCBC` the file holds `iv ++ ciphertext` for the pair returned by
`obj.EncryptCBC(P)`, of length `16 + len(ciphertext)` when the IV has 16 bytes;
after `File.EncryptGCM` it holds `nonce ++ ciphertext` for the pair returned by
`obj.EncryptGCM(P, ad)`, of length `12 + len(ciphertext)` when the nonce has 12
bytes; after a successful `File.EncryptOAEP` it holds exactly the ciphertext
returned by `obj.EncryptOAEP(P, l)`. -/
theorem layout_after_encrypt (f : File) (obj : Object) (st : Store) (P ad l : Bytes)
    (hP : st f.Name = some P) :
    ((f.EncryptCBC obj st Faults.clean).result? = some none
        ∧ (f.EncryptCBC obj st Faults.clean).store f.Name =
            some ((obj.EncryptCBC P).1 ++ (obj.EncryptCBC P).2)
        ∧ ((obj.EncryptCBC P).1.length = 16 →
            ((f.EncryptCBC obj st Faults.clean).store f.Name).map List.length =
              some (16 + (obj.EncryptCBC P).2.length)))
      ∧ ((f.EncryptGCM obj ad st Faults.clean).result? = some none
        ∧ (f.EncryptGCM obj ad st Faults.clean).store f.Name =
            some ((obj.EncryptGCM P ad).1 ++ (obj.EncryptGCM P ad).2)
        ∧ ((obj.EncryptGCM P ad).1.length = 12 →
            ((f.EncryptGCM obj ad st Faults.clean).store f.Name).map List.length =
              some (12 + (obj.EncryptGCM P ad).2.length)))
      ∧ ((obj.EncryptOAEP P l).1 = none →
          (f.EncryptOAEP obj l st Faults.clean).result? = some none
          ∧ (f.EncryptOAEP obj l st Faults.clean).store f.Name =
              some (obj.EncryptOAEP P l).2) := by
  refine ⟨?_, ?_, ?_⟩
  · rw [encryptCBC_clean f obj st P hP]
    refine ⟨rfl, store_set_same _ _ _, ?_⟩
    intro h
    simp [Outcome.store, store_set_same, h]
  · rw [encryptGCM_clean f obj ad st P hP]
    refine ⟨rfl, store_set_same _ _ _, ?_⟩
    intro h
    simp [Outcome.store, store_set_same, h]
  · intro hok
    rw [encryptOAEP_clean f obj l st P hP hok]
    exact ⟨rfl, store_set_same _ _ _⟩

/-- Witness of C2: the example object on the file `a.txt` holding `[1, 2, 3]`;
the CBC record is the 16 zero bytes of the IV followed by the shifted bytes. -/
theorem layout_after_encrypt_witness :
    demoStore [1, 2, 3] demoFile.Name = some [1, 2, 3]
      ∧ (demoFile.EncryptCBC toyObject (demoStore [1, 2, 3]) Faults.clean).store demoFile.Name =
          some (List.replicate 16 0 ++ [2, 3, 4])
      ∧ ((demoFile.EncryptGCM toyObject [9] (demoStore [1, 2, 3]) Faults.clean).store
          demoFile.Name).map List.length = some (12 + 4)
      ∧ (demoFile.EncryptOAEP toyObject [] (demoStore [1, 2, 3]) Faults.clean).store
          demoFile.Name = some [3, 2, 1] :=
  ⟨by decide,
    (layout_after_encrypt demoFile toyObject (demoStore [1, 2, 3]) [1, 2, 3] [9] []
      (by decide)).1.2.1.trans (by decide),
    ((layout_after_encrypt demoFile toyObject (demoStore [1, 2, 3]) [1, 2, 3] [9] []
      (by decide)).2.1.2.2 (by decide)).trans (by decide),
    ((layout_after_encrypt demoFile toyObject (demoStore [1, 2, 3]) [1, 2, 3] [9] []
      (by decide)).2.2 (by decide)).2.trans (by decide)⟩

/-- C1 (round trip). For a file with content `P` and no I/O failure in either
call: if `obj.EncryptCBC(P)` yields a 16-byte IV and `obj.DecryptCBC` inverts it,
then `File.EncryptCBC` followed by `File.DecryptCBC` returns nil twice and leaves
`P` in the file; likewise for GCM with a 12-byte nonce and the same `ad`, where
`obj.DecryptGCM` returns `P`; and
likewise for OAEP with the same label when `obj.EncryptOAEP(P, l)` succeeds and
`obj.DecryptOAEP` inverts it. -/
theorem round_trip (f : File) (obj : Object) (st : Store) (P ad l : Bytes)
    (hP : st f.Name = some P) :
    ((obj.EncryptCBC P).1.length = 16 →
      obj.DecryptCBC (obj.EncryptCBC P).1 (obj.EncryptCBC P).2 = P →
        (f.EncryptCBC obj st Faults.clean).result? = some none
        ∧ (f.DecryptCBC obj (f.EncryptCBC obj st Faults.clean).store Faults.clean).result? =
            some none
        ∧ (f.DecryptCBC obj (f.EncryptCBC obj st Faults.clean).store Faults.clean).store f.Name =
            some P)
      ∧ ((obj.EncryptGCM P ad).1.length = 12 →
        obj.DecryptGCM (obj.EncryptGCM P ad).1 (obj.EncryptGCM P ad).2 ad = Exec.ret P →
          (f.EncryptGCM obj ad st Faults.clean).result? = some none
          ∧ (f.DecryptGCM obj ad (f.EncryptGCM obj ad st Faults.clean).store
                Faults.clean).result? = some none
          ∧ (f.DecryptGCM obj ad (f.EncryptGCM obj ad st Faults.clean).store
                Faults.clean).store f.Name = some P)
      ∧ ((obj.EncryptOAEP P l).1 = none →
        obj.DecryptOAEP (obj.EncryptOAEP P l).2 l = (none, P) →
          (f.EncryptOAEP obj l st Faults.clean).result? = some none
          ∧ (f.DecryptOAEP obj l (f.EncryptOAEP obj l st Faults.clean).store
                Faults.clean).result? = some none
          ∧ (f.DecryptOAEP obj l (f.EncryptOAEP obj l st Faults.clean).store
                Faults.clean).store f.Name = some P) := by
  refine ⟨?_, ?_, ?_⟩
  · intro hiv hinv
    rw [encryptCBC_clean f obj st P hP]
    simp only [Outcome.store]
    have hlen : 16 ≤ ((obj.EncryptCBC P).1 ++ (obj.EncryptCBC P).2).length := by
      rw [List.length_append]; omega
    rw [decryptCBC_clean f obj _ _ (store_set_same _ _ _) hlen,
      List.take_left' hiv, List.drop_left' hiv, hinv]
    exact ⟨rfl, rfl, store_set_same _ _ _⟩
  · intro hn hinv
    rw [encryptGCM_clean f obj ad st P hP]
    simp only [Outcome.store]
    have hlen : 12 ≤ ((obj.EncryptGCM P ad).1 ++ (obj.EncryptGCM P ad).2).length := by
      rw [List.length_append]; omega
    have hpt : obj.DecryptGCM
        (List.take 12 ((obj.EncryptGCM P ad).1 ++ (obj.EncryptGCM P ad).2))
        (List.drop 12 ((obj.EncryptGCM P ad).1 ++ (obj.EncryptGCM P ad).2)) ad = Exec.ret P := by
      rw [List.take_left' hn, List.drop_left' hn, hinv]
    rw [decryptGCM_clean f obj ad _ _ P (store_set_same _ _ _) hlen hpt]
    exact ⟨rfl, rfl, store_set_same _ _ _⟩
  · intro hok hinv
    rw [encryptOAEP_clean f obj l st P hP hok]
    simp only [Outcome.store]
    have hdec : (obj.DecryptOAEP (obj.EncryptOAEP P l).2 l).1 = none := by rw [hinv]
    rw [decryptOAEP_clean f obj l _ _ (store_set_same _ _ _) hdec, hinv]
    exact ⟨rfl, rfl, store_set_same _ _ _⟩

/-- Witness of C1: the example object meets the hypotheses of all three schemes
on the content `[1, 2, 3]`, and each round trip leaves `[1, 2, 3]` in `a.txt`. -/
theorem round_trip_witness :
    demoStore [1, 2, 3] demoFile.Name = some [1, 2, 3]
      ∧ (demoFile.DecryptCBC toyObject
          (demoFile.EncryptCBC toyObject (demoStore [1, 2, 3]) Faults.clean).store
          Faults.clean).store demoFile.Name = some [1, 2, 3]
      ∧ (demoFile.DecryptGCM toyObject [9]
          (demoFile.EncryptGCM toyObject [9] (demoStore [1, 2, 3]) Faults.clean).store
          Faults.clean).store demoFile.Name = some [1, 2, 3]
      ∧ (demoFile.DecryptOAEP toyObject []
          (demoFile.EncryptOAEP toyObject [] (demoStore [1, 2, 3]) Faults.clean).store
          Faults.clean).store demoFile.Name = some [1, 2, 3] :=
  ⟨by decide,
    ((round_trip demoFile toyObject (demoStore [1, 2, 3]) [1, 2, 3] [9] []
      (by decide)).1 (by decide) (by decide)).2.2,
    ((round_trip demoFile toyObject (demoStore [1, 2, 3]) [1, 2, 3] [9] []
      (by decide)).2.1 (by decide) (by decide)).2.2,
    ((round_trip demoFile toyObject (demoStore [1, 2, 3]) [1, 2, 3] [9] []
      (by decide)).2.2 (by decide) (by decide)).2.2⟩

/-- C8 (crypto-stage failure in OAEP). For a file that `ioutil.ReadFile` reads
as `d`, under any create and write faults: if `obj.EncryptOAEP(d, l)` reports the
error `e`, `File.EncryptOAEP` returns `getError(encryptFile, e)` and leaves the
store as it was; if `obj.DecryptOAEP(d, l)` reports `e`, `File.DecryptOAEP`
returns `getError(decryptFile, e)` and leaves the store as it was; and neither
kind is one of `readFile`, `createFile`, `writeFile`. -/
theorem oaep_crypto_failure (f : File) (obj : Object) (l : Bytes) (st : Store)
    (flt : Faults) (d : Bytes) (e : GoError)
    (hread : ReadFile st flt f.Name = Except.ok d) :
    ((obj.EncryptOAEP d l).1 = some e →
        (f.EncryptOAEP obj l st flt).result? = some (some (getError ErrKind.encryptFile e))
        ∧ (f.EncryptOAEP obj l st flt).store = st)
      ∧ ((obj.DecryptOAEP d l).1 = some e →
        (f.DecryptOAEP obj l st flt).result? = some (some (getError ErrKind.decryptFile e))
        ∧ (f.DecryptOAEP obj l st flt).store = st)
      ∧ (getError ErrKind.encryptFile e).kind? = some ErrKind.encryptFile
      ∧ (getError ErrKind.decryptFile e).kind? = some ErrKind.decryptFile
      ∧ ErrKind.encryptFile ∉ [ErrKind.readFile, ErrKind.createFile, ErrKind.writeFile]
      ∧ ErrKind.decryptFile ∉ [ErrKind.readFile, ErrKind.createFile, ErrKind.writeFile] := by
  refine ⟨?_, ?_, rfl, rfl, by decide, by decide⟩
  · intro herr
    unfold File.EncryptOAEP
    rw [hread]
    simp only []
    cases hr : obj.EncryptOAEP d l with
    | mk e1 ct =>
      rw [hr] at herr
      simp only [] at herr
      subst herr
      exact ⟨rfl, rfl⟩
  · intro herr
    unfold File.DecryptOAEP
    rw [hread]
    simp only []
    cases hr : obj.DecryptOAEP d l with
    | mk e1 pt =>
      rw [hr] at herr
      simp only [] at herr
      subst herr
      exact ⟨rfl, rfl⟩

/-- Witness of C8: the example object refuses the five-byte content, and
`File.EncryptOAEP` returns the `encryptFile` error with `a.txt` as it was. -/
theorem oaep_crypto_failure_witness :
    ReadFile (demoStore [1, 2, 3, 4, 5]) Faults.clean demoFile.Name = Except.ok [1, 2, 3, 4, 5]
      ∧ (toyObject.EncryptOAEP [1, 2, 3, 4, 5] []).1 = some (GoError.ext 1)
      ∧ ((demoFile.EncryptOAEP toyObject [] (demoStore [1, 2, 3, 4, 5]) Faults.clean).result? =
          some (some (getError ErrKind.encryptFile (GoError.ext 1)))
        ∧ (demoFile.EncryptOAEP toyObject [] (demoStore [1, 2, 3, 4, 5]) Faults.clean).store =
          demoStore [1, 2, 3, 4, 5])
      ∧ (toyObject.DecryptOAEP [1, 2, 3, 4, 5] []).1 = some (GoError.ext 3)
      ∧ ((demoFile.DecryptOAEP toyObject [] (demoStore [1, 2, 3, 4, 5]) Faults.clean).result? =
          some (some (getError ErrKind.decryptFile (GoError.ext 3)))
        ∧ (demoFile.DecryptOAEP toyObject [] (demoStore [1, 2, 3, 4, 5]) Faults.clean).store =
          demoStore [1, 2, 3, 4, 5]) :=
  ⟨readFile_clean _ _ _ (by decide), by decide,
    (oaep_crypto_failure demoFile toyObject [] (demoStore [1, 2, 3, 4, 5]) Faults.clean
      [1, 2, 3, 4, 5] (GoError.ext 1) (readFile_clean _ _ _ (by decide))).1 (by decide),
    by decide,
    (oaep_crypto_failure demoFile toyObject [] (demoStore [1, 2, 3, 4, 5]) Faults.clean
      [1, 2, 3, 4, 5] (GoError.ext 3) (readFile_clean _ _ _ (by decide))).2.1 (by decide)⟩

/-- C3, refuted as stated. The example object authenticates: it decrypts the
record that `File.EncryptGCM` wrote for `[1, 2, 3]`, and on that record with its
first ciphertext byte changed from 2 to 3 it signals the tag mismatch, by the
panic that is the only signal its result type leaves. `File.DecryptGCM` on the
modified file then does not return at all, so it returns no decrypt error: the
panic reaches the caller, and the file still holds the modified record. -/
theorem gcm_tamper_counterexample :
    (demoFile.EncryptGCM toyObject [] (demoStore [1, 2, 3]) Faults.clean).store demoFile.Name =
        some (List.replicate 12 7 ++ [2, 3, 4, 6])
      ∧ toyObject.DecryptGCM (List.replicate 12 7) [2, 3, 4, 6] [] = Exec.ret [1, 2, 3]
      ∧ toyObject.DecryptGCM (List.replicate 12 7) [3, 3, 4, 6] [] = Exec.panic
      ∧ (demoFile.DecryptGCM toyObject [] (demoStore (List.replicate 12 7 ++ [3, 3, 4, 6]))
          Faults.clean).result? = none
      ∧ (demoFile.DecryptGCM toyObject [] (demoStore (List.replicate 12 7 ++ [3, 3, 4, 6]))
          Faults.clean).store demoFile.Name = some (List.replicate 12 7 ++ [3, 3, 4, 6]) := by
  refine ⟨?_, ?_, ?_, ?_, ?_⟩ <;> decide

/-- C3, amended: `File.DecryptGCM` returns no decrypt error. Under any faults,
every error it returns is of the `readFile`, `createFile` or `writeFile` kind;
and when the primitive signals an authentication failure on the record read from
the file (at least 12 bytes, split at byte 12), the method does not return: the
signal reaches the caller as a panic and the store is as it was, so no plaintext,
right or wrong, has been written. -/
theorem decryptGCM_no_crypto_error (f : File) (obj : Object) (ad : Bytes) (st : Store)
    (flt : Faults) :
    (∀ st1 e, f.DecryptGCM obj ad st flt = Outcome.returned st1 (some e) →
        e.kind? = some ErrKind.readFile ∨ e.kind? = some ErrKind.createFile
          ∨ e.kind? = some ErrKind.writeFile)
      ∧ (∀ d, ReadFile st flt f.Name = Except.ok d → 12 ≤ d.length →
        obj.DecryptGCM (d.take 12) (d.drop 12) ad = Exec.panic →
          (f.DecryptGCM obj ad st flt).result? = none
          ∧ (f.DecryptGCM obj ad st flt).store = st) := by
  constructor
  · intro st1 e h
    unfold File.DecryptGCM at h
    cases hr : ReadFile st flt f.Name with
    | error err =>
      rw [hr] at h
      simp only [Outcome.returned.injEq, Option.some.injEq] at h
      left
      rw [← h.2]
      rfl
    | ok d =>
      rw [hr] at h
      simp only [] at h
      cases hs : sliceAt 12 d with
      | panic =>
        rw [hs] at h
        simp at h
      | ret p =>
        rw [hs] at h
        simp only [] at h
        cases hp : obj.DecryptGCM p.1 p.2 ad with
        | panic =>
          rw [hp] at h
          simp at h
        | ret pt =>
          rw [hp] at h
          simp only [] at h
          exact Or.inr (overwrite_error_kind f st st1 flt _ e h)
  · intro d hread hlen hpanic
    unfold File.DecryptGCM
    rw [hread]
    simp only [sliceAt, hlen, if_true]
    rw [hpanic]
    exact ⟨rfl, rfl⟩

/-- Witness of the amended C3: the modified record of the counterexample, on
which the example object signals the mismatch. -/
theorem decryptGCM_no_crypto_error_witness :
    ReadFile (demoStore (List.replicate 12 7 ++ [3, 3, 4, 6])) Faults.clean demoFile.Name =
        Except.ok (List.replicate 12 7 ++ [3, 3, 4, 6])
      ∧ 12 ≤ (List.replicate 12 7 ++ [3, 3, 4, 6] : Bytes).length
      ∧ toyObject.DecryptGCM (List.take 12 (List.replicate 12 7 ++ [3, 3, 4, 6]))
          (List.drop 12 (List.replicate 12 7 ++ [3, 3, 4, 6])) [] = Exec.panic
      ∧ (demoFile.DecryptGCM toyObject [] (demoStore (List.replicate 12 7 ++ [3, 3, 4, 6]))
          Faults.clean).result? = none
      ∧ (demoFile.DecryptGCM toyObject [] (demoStore (List.replicate 12 7 ++ [3, 3, 4, 6]))
          Faults.clean).store = demoStore (List.replicate 12 7 ++ [3, 3, 4, 6]) :=
  ⟨readFile_clean _ _ _ (by decide), by decide, by decide,
    (decryptGCM_no_crypto_error demoFile toyObject []
      (demoStore (List.replicate 12 7 ++ [3, 3, 4, 6])) Faults.clean).2
      (List.replicate 12 7 ++ [3, 3, 4, 6])
      (readFile_clean _ _ _ (by decide)) (by decide) (by decide)⟩

theorem decrypt_short_panics (f : File) (obj : Object) (ad : Bytes) (st : Store)
    (flt : Faults) (d : Bytes) (hread : ReadFile st flt f.Name = Except.ok d) :
    (d.length < 16 → f.DecryptCBC obj st flt = Outcome.panicked st)
      ∧ (d.length < 12 → f.DecryptGCM obj ad st flt = Outcome.panicked st) := by
  constructor
  · intro h
    have h2 : ¬ 16 ≤ d.length := by omega
    unfold File.DecryptCBC
    rw [hread]
    simp [sliceAt, aesBlockSize, h2]
  · intro h
    have h2 : ¬ 12 ≤ d.length := by omega
    unfold File.DecryptGCM
    rw [hread]
    simp [sliceAt, h2]

/-- C9, the code at the failing input: on a file of three bytes, and on an empty
file, with no I/O failure, `File.DecryptCBC` and `File.DecryptGCM` neither return
a decrypt error nor succeed: the slice expressions `d[:16], d[16:]` and
`d[:12], d[12:]` panic, and the file keeps its content. -/
theorem decrypt_short_file_panics :
    (demoFile.DecryptCBC toyObject (demoStore [1, 2, 3]) Faults.clean).result? = none
      ∧ (demoFile.DecryptGCM toyObject [] (demoStore [1, 2, 3]) Faults.clean).result? = none
      ∧ (demoFile.DecryptCBC toyObject (demoStore []) Faults.clean).result? = none
      ∧ (demoFile.DecryptGCM toyObject [] (demoStore []) Faults.clean).result? = none
      ∧ (demoFile.DecryptCBC toyObject (demoStore [1, 2, 3]) Faults.clean).store demoFile.Name =
          some [1, 2, 3] := by
  refine ⟨?_, ?_, ?_, ?_, ?_⟩ <;> decide

end Everglade
